import Mathlib

/-!
# Verification of nanobot's liveness scheduler and memory consolidation engine

A shallow embedding, in Lean 4, of the control-flow and persistence logic of
`nanobot/heartbeat/service.py` (`HeartbeatService`) and of the memory
consolidation operation `MemoryStore.consolidate` exercised by
`tests/test_memory_consolidation_types.py`.

Layout:
* JSON values, a canonical serializer and a parser, with a codec round-trip
  theorem — the consolidation engine normalizes heterogeneous tool-call
  arguments through this codec;
* the heartbeat service: decision phase, tick, manual trigger, lifecycle
  (`start`) and the timer loop, with explicit traces recording which
  collaborators were invoked and whether an exception escaped;
* the consolidation engine over an explicit file-store state;
* one theorem per specification claim, with witnesses at concrete inputs.
-/

/-! ## JSON values

Python-side values that the decision oracle may put into tool-call arguments:
strings, integers, booleans, null, sequences and mappings.  Mappings are kept
as association lists in arrival order (Python dicts preserve insertion order).
-/

/-- A JSON value: the shape of a (de)serialized tool-call argument field. -/
inductive JsonVal where
  | null
  | bool (b : Bool)
  | num (n : Int)
  | str (s : String)
  | arr (items : List JsonVal)
  | obj (fields : List (String × JsonVal))

/-- Digit character for `k < 10` (`'0'` is code point 48). -/
def digitChar (k : Nat) : Char := Char.ofNat (48 + k)

/-- Is `c` a decimal digit? -/
def isDigitCh (c : Char) : Bool := 48 ≤ c.toNat && c.toNat ≤ 57

/-- Decimal digit characters of `n`, most significant first, with explicit
fuel so the definition is structural (and kernel-reducible). -/
def natCharsAux : Nat → Nat → List Char
  | 0, _ => []
  | fuel + 1, n =>
    if n < 10 then [digitChar n]
    else natCharsAux fuel (n / 10) ++ [digitChar (n % 10)]

/-- Decimal digit characters of `n`, most significant first. -/
def natChars (n : Nat) : List Char := natCharsAux (n + 1) n

/-- Characters of an integer: optional minus sign, then decimal digits. -/
def intChars (n : Int) : List Char :=
  (if n < 0 then ['-'] else []) ++ natChars n.natAbs

/-- JSON escape of one character inside a double-quoted string, as emitted by
`json.dumps` for the common cases (quote, backslash, newline, tab, CR). -/
def escChar (c : Char) : List Char :=
  if c = '"' then ['\\', '"']
  else if c = '\\' then ['\\', '\\']
  else if c = '\n' then ['\\', 'n']
  else if c = '\t' then ['\\', 't']
  else if c = '\r' then ['\\', 'r']
  else [c]

/-- JSON escape of a character list. -/
def escList : List Char → List Char
  | [] => []
  | c :: cs => escChar c ++ escList cs

/-- A double-quoted, escaped JSON string literal. -/
def strChars (s : String) : List Char :=
  '"' :: (escList s.data ++ ['"'])

mutual
/-- Serialize a JSON value with `json.dumps`'s default separators
(`", "` between items, `": "` after keys). -/
def dumpV : JsonVal → List Char
  | .null => "null".data
  | .bool true => "true".data
  | .bool false => "false".data
  | .num n => intChars n
  | .str s => strChars s
  | .arr items => '[' :: (dumpItems items ++ [']'])
  | .obj fields => '{' :: (dumpFields fields ++ ['}'])
/-- Serialize the items of a JSON array (without the brackets). -/
def dumpItems : List JsonVal → List Char
  | [] => []
  | v :: vs => dumpV v ++ dumpItemsTail vs
/-- Serialize trailing array items, each preceded by `", "`. -/
def dumpItemsTail : List JsonVal → List Char
  | [] => []
  | v :: vs => ',' :: ' ' :: (dumpV v ++ dumpItemsTail vs)
/-- Serialize the fields of a JSON object (without the braces). -/
def dumpFields : List (String × JsonVal) → List Char
  | [] => []
  | (k, v) :: fs => strChars k ++ ':' :: ' ' :: (dumpV v ++ dumpFieldsTail fs)
/-- Serialize trailing object fields, each preceded by `", "`. -/
def dumpFieldsTail : List (String × JsonVal) → List Char
  | [] => []
  | (k, v) :: fs => ',' :: ' ' :: (strChars k ++ ':' :: ' ' :: (dumpV v ++ dumpFieldsTail fs))
end

/-- Serialize a JSON value to canonical JSON text (the shape of
`json.dumps(value)`). -/
def dumpJson (v : JsonVal) : String := String.mk (dumpV v)

/-! ### Parsing -/

/-- Skip space characters (the only whitespace the serializer emits). -/
def skipSp : List Char → List Char
  | [] => []
  | c :: r => if c = ' ' then skipSp r else c :: r

/-- Consume an expected literal character sequence. -/
def expectLit : List Char → List Char → Option (List Char)
  | [], r => some r
  | c :: cs, d :: r => if c = d then expectLit cs r else none
  | _ :: _, [] => none

/-- Unescape the character after a backslash. -/
def unescCh (e : Char) : Option Char :=
  if e = '"' then some '"'
  else if e = '\\' then some '\\'
  else if e = 'n' then some '\n'
  else if e = 't' then some '\t'
  else if e = 'r' then some '\r'
  else if e = '/' then some '/'
  else none

/-- Parse the body of a JSON string after the opening quote, accumulating the
unescaped characters in reverse. -/
def parseStrBody (acc : List Char) : List Char → Option (String × List Char)
  | [] => none
  | c :: r =>
    if c = '"' then some (String.mk acc.reverse, r)
    else if c = '\\' then
      match r with
      | [] => none
      | e :: r' =>
        match unescCh e with
        | some d => parseStrBody (d :: acc) r'
        | none => none
    else parseStrBody (c :: acc) r

/-- Split a leading run of decimal digits from the input. -/
def takeDigitRun : List Char → List Char × List Char
  | [] => ([], [])
  | c :: cs =>
    if isDigitCh c then
      let p := takeDigitRun cs
      (c :: p.1, p.2)
    else ([], c :: cs)

/-- Numeric value of a digit run. -/
def digitsVal (ds : List Char) : Nat :=
  ds.foldl (fun a c => a * 10 + (c.toNat - 48)) 0

/-- Parse a nonempty run of decimal digits as a natural number. -/
def parseNatNum (cs : List Char) : Option (Nat × List Char) :=
  match takeDigitRun cs with
  | ([], _) => none
  | (ds, rest) => some (digitsVal ds, rest)

mutual
/-- Parse one JSON value (fuel-indexed so totality is structural). -/
def parseV : Nat → List Char → Option (JsonVal × List Char)
  | 0, _ => none
  | fuel + 1, cs =>
    match skipSp cs with
    | [] => none
    | c :: r =>
      if c = 'n' then (expectLit ['u', 'l', 'l'] r).map (fun r' => (.null, r'))
      else if c = 't' then (expectLit ['r', 'u', 'e'] r).map (fun r' => (.bool true, r'))
      else if c = 'f' then (expectLit ['a', 'l', 's', 'e'] r).map (fun r' => (.bool false, r'))
      else if c = '"' then (parseStrBody [] r).map (fun p => (.str p.1, p.2))
      else if c = '[' then
        match skipSp r with
        | [] => none
        | d :: r' =>
          if d = ']' then some (.arr [], r')
          else (parseItems fuel (d :: r')).map (fun p => (.arr p.1, p.2))
      else if c = '{' then
        match skipSp r with
        | [] => none
        | d :: r' =>
          if d = '}' then some (.obj [], r')
          else (parseFields fuel (d :: r')).map (fun p => (.obj p.1, p.2))
      else if c = '-' then (parseNatNum r).map (fun p => (.num (-(p.1 : Int)), p.2))
      else if isDigitCh c then (parseNatNum (c :: r)).map (fun p => (.num (p.1 : Int), p.2))
      else none
/-- Parse one-or-more comma-separated array items up to the closing bracket. -/
def parseItems : Nat → List Char → Option (List JsonVal × List Char)
  | 0, _ => none
  | fuel + 1, cs =>
    match parseV fuel cs with
    | none => none
    | some (v, r) =>
      match skipSp r with
      | [] => none
      | d :: r2 =>
        if d = ',' then (parseItems fuel r2).map (fun p => (v :: p.1, p.2))
        else if d = ']' then some ([v], r2)
        else none
/-- Parse one-or-more comma-separated object fields up to the closing brace. -/
def parseFields : Nat → List Char → Option (List (String × JsonVal) × List Char)
  | 0, _ => none
  | fuel + 1, cs =>
    match skipSp cs with
    | [] => none
    | c :: r =>
      if c = '"' then
        match parseStrBody [] r with
        | none => none
        | some (k, r1) =>
          match skipSp r1 with
          | [] => none
          | e :: r2 =>
            if e = ':' then
              match parseV fuel r2 with
              | none => none
              | some (v, r3) =>
                match skipSp r3 with
                | [] => none
                | d :: r4 =>
                  if d = ',' then (parseFields fuel r4).map (fun p => ((k, v) :: p.1, p.2))
                  else if d = '}' then some ([(k, v)], r4)
                  else none
            else none
      else none
end

/-- Parse a complete JSON document (the shape of `json.loads(text)`; `none`
when the text is not valid JSON). -/
def parseJson (s : String) : Option JsonVal :=
  match parseV (s.data.length + 1) s.data with
  | some (v, r) => if skipSp r = [] then some v else none
  | none => none

/-- Does the input avoid starting with a decimal digit?  (The delimiter
condition under which a parsed number cannot be extended by the remainder.) -/
def notDigitHead : List Char → Bool
  | [] => true
  | c :: _ => !isDigitCh c

/-! ### Codec round-trip: digits -/

theorem digitChar_facts : ∀ k < 10,
    isDigitCh (digitChar k) = true ∧ (digitChar k).toNat - 48 = k := by decide

/-- A decimal digit is none of the parser's structural characters. -/
theorem digit_ne {c : Char} (h : isDigitCh c = true) :
    c ≠ ' ' ∧ c ≠ ']' ∧ c ≠ '}' ∧ c ≠ 'n' ∧ c ≠ 't' ∧ c ≠ 'f' ∧
      c ≠ '"' ∧ c ≠ '[' ∧ c ≠ '{' ∧ c ≠ '-' := by
  refine ⟨?_, ?_, ?_, ?_, ?_, ?_, ?_, ?_, ?_, ?_⟩ <;>
    (rintro rfl; exact absurd h (by decide))

/-- `natCharsAux` does not depend on the fuel, once sufficient. -/
theorem natCharsAux_fuel (n : Nat) : ∀ fuel fuel' : Nat, n < fuel → n < fuel' →
    natCharsAux fuel n = natCharsAux fuel' n := by
  induction n using Nat.strong_induction_on with
  | _ n ih =>
    intro fuel fuel' hf hf'
    match fuel, fuel' with
    | f + 1, g + 1 =>
      simp only [natCharsAux]
      by_cases h10 : n < 10
      · simp [h10]
      · have hd : n / 10 < n := Nat.div_lt_self (by omega) (by omega)
        simp only [if_neg h10]
        rw [ih (n / 10) hd f g (by omega) (by omega)]

/-- The recursive unfolding of `natChars`. -/
theorem natChars_eq (n : Nat) :
    natChars n = if n < 10 then [digitChar n]
                 else natChars (n / 10) ++ [digitChar (n % 10)] := by
  show natCharsAux (n + 1) n = _
  simp only [natCharsAux]
  by_cases h10 : n < 10
  · simp [h10]
  · have hd : n / 10 < n := Nat.div_lt_self (by omega) (by omega)
    rw [natCharsAux_fuel (n / 10) n (n / 10 + 1) (by omega) (by omega)]
    simp [h10, natChars]

theorem natChars_ne_nil (n : Nat) : natChars n ≠ [] := by
  rw [natChars_eq]
  by_cases h10 : n < 10 <;> simp [h10]

theorem natChars_digits (n : Nat) : ∀ c ∈ natChars n, isDigitCh c = true := by
  induction n using Nat.strong_induction_on with
  | _ n ih =>
    rw [natChars_eq]
    by_cases h10 : n < 10
    · simp only [if_pos h10, List.mem_singleton]
      rintro c rfl
      exact (digitChar_facts n h10).1
    · have hd : n / 10 < n := Nat.div_lt_self (by omega) (by omega)
      simp only [if_neg h10, List.mem_append, List.mem_singleton]
      rintro c (hc | rfl)
      · exact ih (n / 10) hd c hc
      · exact (digitChar_facts (n % 10) (Nat.mod_lt _ (by omega))).1

theorem digitsVal_natChars (n : Nat) : digitsVal (natChars n) = n := by
  induction n using Nat.strong_induction_on with
  | _ n ih =>
    rw [natChars_eq]
    by_cases h10 : n < 10
    · simp only [if_pos h10, digitsVal, List.foldl_cons, List.foldl_nil]
      have := (digitChar_facts n h10).2
      omega
    · have hd : n / 10 < n := Nat.div_lt_self (by omega) (by omega)
      simp only [if_neg h10, digitsVal, List.foldl_append, List.foldl_cons, List.foldl_nil]
      have h1 : (natChars (n / 10)).foldl (fun a c => a * 10 + (c.toNat - 48)) 0 = n / 10 :=
        ih (n / 10) hd
      have h2 := (digitChar_facts (n % 10) (Nat.mod_lt _ (by omega))).2
      rw [h1, h2]
      omega

theorem takeDigitRun_stop {cs : List Char} (h : notDigitHead cs = true) :
    takeDigitRun cs = ([], cs) := by
  match cs with
  | [] => rfl
  | c :: t =>
    simp only [notDigitHead, Bool.not_eq_true'] at h
    simp [takeDigitRun, h]

theorem takeDigitRun_run (ds : List Char) (rest : List Char)
    (hds : ∀ c ∈ ds, isDigitCh c = true) (hrest : notDigitHead rest = true) :
    takeDigitRun (ds ++ rest) = (ds, rest) := by
  induction ds with
  | nil => simpa using takeDigitRun_stop hrest
  | cons c t ih =>
    have hc : isDigitCh c = true := hds c (by simp)
    have ht := ih (fun x hx => hds x (by simp [hx]))
    simp [takeDigitRun, hc, ht]

theorem parseNatNum_natChars (n : Nat) (rest : List Char)
    (hrest : notDigitHead rest = true) :
    parseNatNum (natChars n ++ rest) = some (n, rest) := by
  have h1 := takeDigitRun_run (natChars n) rest (natChars_digits n) hrest
  obtain ⟨c, t, hct⟩ : ∃ c t, natChars n = c :: t := by
    cases h : natChars n with
    | nil => exact absurd h (natChars_ne_nil n)
    | cons c t => exact ⟨c, t, rfl⟩
  have h2 : digitsVal (c :: t) = n := by rw [← hct]; exact digitsVal_natChars n
  rw [hct] at h1 ⊢
  simp only [parseNatNum, h1, h2]

/-! ### Codec round-trip: strings -/

/-- Parsing one escaped character undoes `escChar`. -/
theorem parseStrBody_escChar (c : Char) (acc rest : List Char) :
    parseStrBody acc (escChar c ++ rest) = parseStrBody (c :: acc) rest := by
  by_cases h1 : c = '"'
  · subst h1; simp [escChar, parseStrBody, unescCh]
  by_cases h2 : c = '\\'
  · subst h2; simp [escChar, parseStrBody, unescCh]
  by_cases h3 : c = '\n'
  · subst h3; simp [escChar, parseStrBody, unescCh]
  by_cases h4 : c = '\t'
  · subst h4; simp [escChar, parseStrBody, unescCh]
  by_cases h5 : c = '\r'
  · subst h5; simp [escChar, parseStrBody, unescCh]
  · rw [show escChar c = [c] from by simp [escChar, h1, h2, h3, h4, h5],
        List.singleton_append, parseStrBody.eq_def]
    simp [h1, h2]

/-- Parsing an escaped character run stops exactly at the closing quote. -/
theorem parseStrBody_escList (cs : List Char) : ∀ (acc rest : List Char),
    parseStrBody acc (escList cs ++ '"' :: rest)
      = some (String.mk (acc.reverse ++ cs), rest) := by
  induction cs with
  | nil =>
    intro acc rest
    rw [escList, List.nil_append, parseStrBody.eq_def]
    simp
  | cons c cs ih =>
    intro acc rest
    rw [escList, List.append_assoc, parseStrBody_escChar, ih]
    simp

/-- The string codec round-trip: the body parser inverts `escList`. -/
theorem parseStrBody_round (s : String) (rest : List Char) :
    parseStrBody [] (escList s.data ++ '"' :: rest) = some (s, rest) := by
  rw [parseStrBody_escList]
  simp

/-! ### Codec round-trip: heads of serialized values -/

/-- Every serialized value begins with a character that is not a space and
closes neither an array nor an object. -/
theorem dumpV_head (v : JsonVal) :
    ∃ c t, dumpV v = c :: t ∧ c ≠ ' ' ∧ c ≠ ']' ∧ c ≠ '}' := by
  cases v with
  | null => refine ⟨'n', _, rfl, ?_, ?_, ?_⟩ <;> decide
  | bool b =>
    cases b with
    | true => refine ⟨'t', _, rfl, ?_, ?_, ?_⟩ <;> decide
    | false => refine ⟨'f', _, rfl, ?_, ?_, ?_⟩ <;> decide
  | num n =>
    by_cases hn : n < 0
    · refine ⟨'-', natChars n.natAbs, by simp [dumpV, intChars, hn], ?_, ?_, ?_⟩ <;> decide
    · obtain ⟨c, t, hct⟩ : ∃ c t, natChars n.natAbs = c :: t := by
        cases h : natChars n.natAbs with
        | nil => exact absurd h (natChars_ne_nil _)
        | cons c t => exact ⟨c, t, rfl⟩
      have hc : isDigitCh c = true := natChars_digits _ c (by rw [hct]; simp)
      obtain ⟨h8, h9, h10, -, -, -, -, -, -, -⟩ := digit_ne hc
      exact ⟨c, t, by simp [dumpV, intChars, hn, hct], h8, h9, h10⟩
  | str s => refine ⟨'"', _, rfl, ?_, ?_, ?_⟩ <;> decide
  | arr items => refine ⟨'[', _, rfl, ?_, ?_, ?_⟩ <;> decide
  | obj fields => refine ⟨'{', _, rfl, ?_, ?_, ?_⟩ <;> decide

theorem dumpV_length_pos (v : JsonVal) : 1 ≤ (dumpV v).length := by
  obtain ⟨c, t, hct, -, -, -⟩ := dumpV_head v
  simp [hct]

/-- `skipSp` is the identity on serialized output (it never starts with a
space). -/
theorem skipSp_dumpV (v : JsonVal) (x : List Char) :
    skipSp (dumpV v ++ x) = dumpV v ++ x := by
  obtain ⟨c, t, hct, hsp, -, -⟩ := dumpV_head v
  rw [hct, List.cons_append]
  simp [skipSp, hsp]

/-! ### Codec round-trip: leading-space insensitivity -/

theorem parseV_sp (fuel : Nat) (cs : List Char) :
    parseV fuel (' ' :: cs) = parseV fuel cs := by
  cases fuel with
  | zero => rfl
  | succ f =>
    simp only [parseV]
    rw [show skipSp (' ' :: cs) = skipSp cs from by simp [skipSp]]

theorem parseItems_sp (fuel : Nat) (cs : List Char) :
    parseItems fuel (' ' :: cs) = parseItems fuel cs := by
  cases fuel with
  | zero => rfl
  | succ f => simp only [parseItems, parseV_sp]

theorem parseFields_sp (fuel : Nat) (cs : List Char) :
    parseFields fuel (' ' :: cs) = parseFields fuel cs := by
  cases fuel with
  | zero => rfl
  | succ f =>
    simp only [parseFields]
    rw [show skipSp (' ' :: cs) = skipSp cs from by simp [skipSp]]

/-! ### Codec round-trip: one parser step per value shape -/

theorem parseV_null (f : Nat) (rest : List Char) :
    parseV (f + 1) (dumpV .null ++ rest) = some (.null, rest) := by
  show parseV (f + 1) ('n' :: 'u' :: 'l' :: 'l' :: rest) = some (.null, rest)
  simp [parseV, skipSp, expectLit]

theorem parseV_bool (f : Nat) (b : Bool) (rest : List Char) :
    parseV (f + 1) (dumpV (.bool b) ++ rest) = some (.bool b, rest) := by
  cases b with
  | true =>
    show parseV (f + 1) ('t' :: 'r' :: 'u' :: 'e' :: rest) = _
    simp [parseV, skipSp, expectLit]
  | false =>
    show parseV (f + 1) ('f' :: 'a' :: 'l' :: 's' :: 'e' :: rest) = _
    simp [parseV, skipSp, expectLit]

theorem parseV_num (f : Nat) (n : Int) (rest : List Char)
    (hrest : notDigitHead rest = true) :
    parseV (f + 1) (dumpV (.num n) ++ rest) = some (.num n, rest) := by
  by_cases hn : n < 0
  · have hd : dumpV (.num n) ++ rest = '-' :: (natChars n.natAbs ++ rest) := by
      simp [dumpV, intChars, hn]
    rw [hd]
    simp [parseV, skipSp, parseNatNum_natChars _ _ hrest]
    rw [abs_of_neg hn, neg_neg]
  · obtain ⟨c, t, hct⟩ : ∃ c t, natChars n.natAbs = c :: t := by
      cases h : natChars n.natAbs with
      | nil => exact absurd h (natChars_ne_nil _)
      | cons c t => exact ⟨c, t, rfl⟩
    have hcd : isDigitCh c = true := natChars_digits _ c (by rw [hct]; simp)
    obtain ⟨d8, -, -, d1, d2, d3, d4, d5, d6, d7⟩ := digit_ne hcd
    have hd : dumpV (.num n) ++ rest = c :: (t ++ rest) := by
      simp [dumpV, intChars, hn, hct]
    have hback : c :: (t ++ rest) = natChars n.natAbs ++ rest := by
      rw [hct]; simp
    have hv : (((n.natAbs : Nat) : Int)) = n := by omega
    rw [hd]
    simp only [parseV]
    rw [show skipSp (c :: (t ++ rest)) = c :: (t ++ rest) from by simp [skipSp, d8]]
    simp only [d1, d2, d3, d4, d5, d6, d7, if_neg, if_false, ite_false, hcd, if_true, ite_true,
      reduceIte]
    rw [hback, parseNatNum_natChars _ _ hrest]
    simp [hv]

theorem parseV_str (f : Nat) (s : String) (rest : List Char) :
    parseV (f + 1) (dumpV (.str s) ++ rest) = some (.str s, rest) := by
  have hd : dumpV (.str s) ++ rest = '"' :: (escList s.data ++ '"' :: rest) := by
    simp [dumpV, strChars]
  rw [hd]
  simp [parseV, skipSp, parseStrBody_round]

theorem parseV_arr_nil (f : Nat) (rest : List Char) :
    parseV (f + 1) (dumpV (.arr []) ++ rest) = some (.arr [], rest) := by
  show parseV (f + 1) ('[' :: ']' :: rest) = _
  simp [parseV, skipSp]

theorem parseV_obj_nil (f : Nat) (rest : List Char) :
    parseV (f + 1) (dumpV (.obj []) ++ rest) = some (.obj [], rest) := by
  show parseV (f + 1) ('{' :: '}' :: rest) = _
  simp [parseV, skipSp]

/-- The parser's nonempty-array branch hands off to `parseItems`. -/
theorem parseV_arr_cons (f : Nat) (v : JsonVal) (vs : List JsonVal) (rest : List Char) :
    parseV (f + 1) (dumpV (.arr (v :: vs)) ++ rest)
      = (parseItems f (dumpItems (v :: vs) ++ ']' :: rest)).map
          (fun p => (.arr p.1, p.2)) := by
  obtain ⟨c0, t0, h0, hsp, hbr, -⟩ := dumpV_head v
  have hshape : dumpV (.arr (v :: vs)) ++ rest
      = '[' :: (c0 :: (t0 ++ (dumpItemsTail vs ++ ']' :: rest))) := by
    simp [dumpV, dumpItems, h0]
  have hshape2 : dumpItems (v :: vs) ++ ']' :: rest
      = c0 :: (t0 ++ (dumpItemsTail vs ++ ']' :: rest)) := by
    simp [dumpItems, h0]
  rw [hshape]
  simp only [parseV]
  simp [skipSp, hsp, hbr]
  rw [hshape2]

/-- The parser's nonempty-object branch hands off to `parseFields`. -/
theorem parseV_obj_cons (f : Nat) (k : String) (v : JsonVal)
    (fs : List (String × JsonVal)) (rest : List Char) :
    parseV (f + 1) (dumpV (.obj ((k, v) :: fs)) ++ rest)
      = (parseFields f (dumpFields ((k, v) :: fs) ++ '}' :: rest)).map
          (fun p => (.obj p.1, p.2)) := by
  have hshape : dumpV (.obj ((k, v) :: fs)) ++ rest
      = '{' :: ('"' :: (escList k.data ++ ('"' :: (':' :: ' ' ::
          (dumpV v ++ (dumpFieldsTail fs ++ '}' :: rest))))))  := by
    simp [dumpV, dumpFields, strChars]
  have hshape2 : dumpFields ((k, v) :: fs) ++ '}' :: rest
      = '"' :: (escList k.data ++ ('"' :: (':' :: ' ' ::
          (dumpV v ++ (dumpFieldsTail fs ++ '}' :: rest))))) := by
    simp [dumpFields, strChars]
  rw [hshape]
  simp only [parseV]
  simp [skipSp]
  rw [hshape2]

/-! ### Codec round-trip: the main induction -/

theorem dumpItemsTail_cons (v : JsonVal) (vs : List JsonVal) :
    dumpItemsTail (v :: vs) = ',' :: ' ' :: dumpItems (v :: vs) := by
  simp [dumpItemsTail, dumpItems]

theorem dumpFieldsTail_cons (k : String) (v : JsonVal) (fs : List (String × JsonVal)) :
    dumpFieldsTail ((k, v) :: fs) = ',' :: ' ' :: dumpFields ((k, v) :: fs) := by
  simp [dumpFieldsTail, dumpFields]

theorem notDigitHead_itemsTail (vs : List JsonVal) (rest : List Char) :
    notDigitHead (dumpItemsTail vs ++ ']' :: rest) = true := by
  cases vs with
  | nil => simp only [dumpItemsTail, List.nil_append, notDigitHead]; decide
  | cons x xs => rw [dumpItemsTail_cons, List.cons_append, notDigitHead]; decide

theorem notDigitHead_fieldsTail (fs : List (String × JsonVal)) (rest : List Char) :
    notDigitHead (dumpFieldsTail fs ++ '}' :: rest) = true := by
  cases fs with
  | nil => simp only [dumpFieldsTail, List.nil_append, notDigitHead]; decide
  | cons g gs =>
    obtain ⟨k2, v2⟩ := g
    rw [dumpFieldsTail_cons, List.cons_append, notDigitHead]; decide

mutual
/-- The value codec round-trip: the parser inverts the serializer on any
value, leaving the remainder untouched, provided the remainder cannot extend
a serialized number. -/
theorem rtV : ∀ (v : JsonVal) (fuel : Nat) (rest : List Char),
    (dumpV v).length < fuel → notDigitHead rest = true →
    parseV fuel (dumpV v ++ rest) = some (v, rest)
  | _, 0, _, hf, _ => absurd hf (Nat.not_lt_zero _)
  | .null, fuel + 1, rest, _, _ => parseV_null fuel rest
  | .bool b, fuel + 1, rest, _, _ => parseV_bool fuel b rest
  | .num n, fuel + 1, rest, _, hr => parseV_num fuel n rest hr
  | .str s, fuel + 1, rest, _, _ => parseV_str fuel s rest
  | .arr [], fuel + 1, rest, _, _ => parseV_arr_nil fuel rest
  | .arr (v :: vs), fuel + 1, rest, hf, _ => by
    have h1 : dumpV (.arr (v :: vs)) = '[' :: (dumpItems (v :: vs) ++ [']']) := rfl
    have h2 := congrArg List.length h1
    simp [List.length_append] at h2
    rw [parseV_arr_cons, rtItems v vs fuel rest (by omega)]
    rfl
  | .obj [], fuel + 1, rest, _, _ => parseV_obj_nil fuel rest
  | .obj ((k, v) :: fs), fuel + 1, rest, hf, _ => by
    have h1 : dumpV (.obj ((k, v) :: fs)) = '{' :: (dumpFields ((k, v) :: fs) ++ ['}']) := rfl
    have h2 := congrArg List.length h1
    simp [List.length_append] at h2
    rw [parseV_obj_cons, rtFields k v fs fuel rest (by omega)]
    rfl
termination_by v _ _ _ _ => sizeOf v
/-- Round-trip for nonempty serialized array bodies, up to the closing
bracket. -/
theorem rtItems : ∀ (v : JsonVal) (vs : List JsonVal) (fuel : Nat) (rest : List Char),
    (dumpItems (v :: vs)).length + 1 < fuel →
    parseItems fuel (dumpItems (v :: vs) ++ ']' :: rest) = some (v :: vs, rest)
  | _, _, 0, _, hf => absurd hf (Nat.not_lt_zero _)
  | v, [], fuel + 1, rest, hf => by
    have h1 : dumpItems [v] = dumpV v ++ [] := rfl
    have h2 := congrArg List.length h1
    simp [List.length_append] at h2
    have hsplit : dumpItems [v] ++ ']' :: rest = dumpV v ++ (']' :: rest) := by
      rw [h1]; simp
    simp only [parseItems]
    rw [hsplit, rtV v fuel (']' :: rest) (by omega) (by rw [notDigitHead]; decide)]
    simp [skipSp]
  | v, x :: xs, fuel + 1, rest, hf => by
    have h1 : dumpItems (v :: x :: xs) = dumpV v ++ (',' :: ' ' :: dumpItems (x :: xs)) := by
      rw [dumpItems, dumpItemsTail_cons]
    have h2 := congrArg List.length h1
    simp [List.length_append] at h2
    have hvpos := dumpV_length_pos x
    have h3 : dumpItems (x :: xs) = dumpV x ++ dumpItemsTail xs := rfl
    have h4 := congrArg List.length h3
    simp [List.length_append] at h4
    have hsplit : dumpItems (v :: x :: xs) ++ ']' :: rest
        = dumpV v ++ (',' :: ' ' :: (dumpItems (x :: xs) ++ ']' :: rest)) := by
      rw [h1]; simp
    simp only [parseItems]
    rw [hsplit, rtV v fuel (',' :: ' ' :: (dumpItems (x :: xs) ++ ']' :: rest)) (by omega)
        (by rw [notDigitHead]; decide)]
    simp [skipSp]
    rw [parseItems_sp, rtItems x xs fuel rest (by omega)]
termination_by v vs _ _ _ => 1 + sizeOf v + sizeOf vs
/-- Round-trip for nonempty serialized object bodies, up to the closing
brace. -/
theorem rtFields : ∀ (k : String) (v : JsonVal) (fs : List (String × JsonVal))
    (fuel : Nat) (rest : List Char),
    (dumpFields ((k, v) :: fs)).length + 1 < fuel →
    parseFields fuel (dumpFields ((k, v) :: fs) ++ '}' :: rest) = some ((k, v) :: fs, rest)
  | _, _, _, 0, _, hf => absurd hf (Nat.not_lt_zero _)
  | k, v, [], fuel + 1, rest, hf => by
    have h1 : dumpFields [(k, v)]
        = '"' :: (escList k.data ++ ('"' :: (':' :: ' ' :: (dumpV v ++ [])))) := by
      rw [dumpFields, strChars]; simp [dumpFieldsTail]
    have h2 := congrArg List.length h1
    simp [List.length_append] at h2
    have hsplit : dumpFields [(k, v)] ++ '}' :: rest
        = '"' :: (escList k.data ++ ('"' :: (':' :: ' ' :: (dumpV v ++ ('}' :: rest))))) := by
      rw [h1]; simp
    simp only [parseFields]
    rw [hsplit]
    simp [skipSp, parseStrBody_round]
    rw [parseV_sp, rtV v fuel ('}' :: rest) (by omega) (by rw [notDigitHead]; decide)]
    simp [skipSp]
  | k, v, (k2, v2) :: fs2, fuel + 1, rest, hf => by
    have h1 : dumpFields ((k, v) :: (k2, v2) :: fs2)
        = '"' :: (escList k.data ++ ('"' :: (':' :: ' ' ::
            (dumpV v ++ (',' :: ' ' :: dumpFields ((k2, v2) :: fs2)))))) := by
      rw [dumpFields, strChars, dumpFieldsTail_cons]; simp
    have h2 := congrArg List.length h1
    simp [List.length_append] at h2
    have hsplit : dumpFields ((k, v) :: (k2, v2) :: fs2) ++ '}' :: rest
        = '"' :: (escList k.data ++ ('"' :: (':' :: ' ' ::
            (dumpV v ++ (',' :: ' ' :: (dumpFields ((k2, v2) :: fs2) ++ '}' :: rest)))))) := by
      rw [h1]; simp
    simp only [parseFields]
    rw [hsplit]
    simp [skipSp, parseStrBody_round]
    rw [parseV_sp, rtV v fuel (',' :: ' ' :: (dumpFields ((k2, v2) :: fs2) ++ '}' :: rest))
        (by omega) (by rw [notDigitHead]; decide)]
    simp [skipSp]
    rw [parseFields_sp, rtFields k2 v2 fs2 fuel rest (by omega)]
termination_by _ v fs _ _ _ => 1 + sizeOf v + sizeOf fs
end

/-- The codec round-trip: parsing serialized JSON recovers the value. -/
theorem parseJson_dumpJson (v : JsonVal) : parseJson (dumpJson v) = some v := by
  have hdata : (dumpJson v).data = dumpV v := rfl
  have hrt := rtV v ((dumpV v).length + 1) [] (by omega) rfl
  rw [List.append_nil] at hrt
  simp only [parseJson, hdata, hrt]
  simp [skipSp]

/-! ## Heartbeat service (`nanobot/heartbeat/service.py`)

The decision oracle (`provider.chat`) is modelled by the outcome of its call
for the cycle under consideration: `Except.error e` when the call raises,
`Except.ok resp` when it returns a response.  The `on_execute` and
`on_notify` callbacks are likewise fallible functions.  `tick` and
`triggerNow` return an explicit `CycleTrace` recording which collaborators
were invoked, the returned value, and whether an exception escaped to the
caller.
-/

/-- One tool call of an oracle response, as `_decide` consumes it: its
`arguments` mapping (the `action`/`tasks` fields of the virtual `heartbeat`
tool are strings). -/
structure HBToolCall where
  args : List (String × String)
deriving DecidableEq

/-- An oracle response as the heartbeat service consumes it:
`has_tool_calls` is the nonemptiness of `toolCalls`. -/
structure HBResponse where
  toolCalls : List HBToolCall
deriving DecidableEq

/-- `dict.get(key)` on an arguments mapping. -/
def getArg : List (String × String) → String → Option String
  | [], _ => none
  | (k, v) :: rest, key => if k = key then some v else getArg rest key

/-- The pure tail of `HeartbeatService._decide`: with no tool call the
decision defaults to `("skip", "")`; otherwise it reads
`tool_calls[0].arguments` with `args.get("action", "skip")` and
`args.get("tasks", "")`. -/
def hbDecide (resp : HBResponse) : String × String :=
  match resp.toolCalls with
  | [] => ("skip", "")
  | tc :: _ => ((getArg tc.args "action").getD "skip", (getArg tc.args "tasks").getD "")

/-- `HeartbeatService._decide`: the oracle round-trip followed by
`hbDecide`; a failure of the `chat` call propagates. -/
def decidePhase (oracle : Except String HBResponse) : Except String (String × String) :=
  match oracle with
  | .error e => .error e
  | .ok resp => .ok (hbDecide resp)

/-- The on-disk state of the trigger file `HEARTBEAT.md`. -/
inductive FileState where
  | absent
  | unreadable
  | present (content : String)
deriving DecidableEq

/-- `HeartbeatService._read_heartbeat_file`: `none` when the file does not
exist or `read_text` raises (the exception is swallowed). -/
def readHeartbeatFile : FileState → Option String
  | .absent => none
  | .unreadable => none
  | .present c => some c

/-- The collaborator environment one decision+execution cycle runs in. -/
structure TickEnv where
  file : FileState
  oracle : Except String HBResponse

/-- Observable outcome of one cycle: which collaborators ran, with what,
the returned value, and the exception that escaped to the caller (if any). -/
structure CycleTrace where
  oracleCalled : Bool
  executeCalledWith : Option String
  notifyCalledWith : Option String
  result : Option String
  raised : Option String
deriving DecidableEq

/-- The trace of a cycle that returns before the decision phase. -/
def noopTrace : CycleTrace := ⟨false, none, none, none, none⟩

/-- `HeartbeatService._tick`: read the trigger file (`if not content`
covers both a missing/unreadable file and an empty one); then run the
decision and execution phases inside `try ... except Exception`, so any
failure of the oracle call, the execute callback or the notify callback is
caught and logged — `raised` is `none` on every path. -/
def tick (env : TickEnv) (onExecute : Option (String → Except String String))
    (onNotify : Option (String → Except String Unit)) : CycleTrace :=
  match readHeartbeatFile env.file with
  | none => noopTrace
  | some content =>
    if content = "" then noopTrace
    else
      match decidePhase env.oracle with
      | .error _ => ⟨true, none, none, none, none⟩
      | .ok (action, tasks) =>
        if action ≠ "run" then ⟨true, none, none, none, none⟩
        else
          match onExecute with
          | none => ⟨true, none, none, none, none⟩
          | some f =>
            match f tasks with
            | .error _ => ⟨true, some tasks, none, none, none⟩
            | .ok response =>
              if response ≠ "" then
                match onNotify with
                | some g =>
                  match g response with
                  | .error _ => ⟨true, some tasks, some response, none, none⟩
                  | .ok _ => ⟨true, some tasks, some response, none, none⟩
                | none => ⟨true, some tasks, none, none, none⟩
              else ⟨true, some tasks, none, none, none⟩

/-- `HeartbeatService.trigger_now`: same read and decision phases, but with
no `try`/`except` — a failure of the oracle call or of the execute callback
escapes to the caller (`raised`).  Returns `none` unless the decision is
`run` and an execute callback is registered. -/
def triggerNow (env : TickEnv)
    (onExecute : Option (String → Except String String)) : CycleTrace :=
  match readHeartbeatFile env.file with
  | none => noopTrace
  | some content =>
    if content = "" then noopTrace
    else
      match decidePhase env.oracle with
      | .error e => ⟨true, none, none, none, some e⟩
      | .ok (action, tasks) =>
        if action ≠ "run" then ⟨true, none, none, none, none⟩
        else
          match onExecute with
          | none => ⟨true, none, none, none, none⟩
          | some f =>
            match f tasks with
            | .error e => ⟨true, some tasks, none, none, some e⟩
            | .ok r => ⟨true, some tasks, none, some r, none⟩

/-- The lifecycle fields of a `HeartbeatService` instance. -/
structure HeartbeatState where
  enabled : Bool
  running : Bool
  task : Option Nat
  intervalS : Nat
deriving DecidableEq

/-- `HeartbeatService.start`: a no-op when disabled, a no-op when already
running (the retained task handle is untouched); otherwise sets `_running`
and retains a handle to the freshly created loop task. -/
def start (st : HeartbeatState) (newTask : Nat) : HeartbeatState :=
  if !st.enabled then st
  else if st.running then st
  else { st with running := true, task := some newTask }

/-- `HeartbeatService.stop`: clears `_running` and, when a task handle is
retained, cancels it and clears the handle. -/
def stop (st : HeartbeatState) : HeartbeatState :=
  match st.task with
  | some _ => { st with running := false, task := none }
  | none => { st with running := false }

/-- What reaches one iteration of `_run_loop`: either a cancellation signal
delivered at the inter-tick sleep (also covering `_running` having been
cleared by `stop`), or the timer firing into `_tick` against that tick's
collaborator environment. -/
inductive LoopEvent where
  | cancel
  | fire (env : TickEnv)

/-- `HeartbeatService._run_loop`: run `_tick` on every timer firing until a
cancellation, collecting the traces.  `_tick` never raises, and the loop
body additionally catches any exception, so processing always continues to
the next event. -/
def runLoop (onExecute : Option (String → Except String String))
    (onNotify : Option (String → Except String Unit)) : List LoopEvent → List CycleTrace
  | [] => []
  | .cancel :: _ => []
  | .fire env :: rest => tick env onExecute onNotify :: runLoop onExecute onNotify rest

/-! ## Memory consolidation engine

The repository carries `tests/test_memory_consolidation_types.py` for
`MemoryStore.consolidate`, but `nanobot/agent/memory.py` itself is not in
the source tree, so the operation is modelled from the specification (its
window gate, oracle call, argument normalization and persistence contract)
and from the shapes its tests exercise.
-/

/-- One message record of a session transcript. -/
structure Message where
  role : String
  content : String
  timestamp : String
deriving DecidableEq

/-- A session: ordered message log plus the consolidation watermark. -/
structure Session where
  messages : List Message
  lastConsolidated : Nat

/-- Tool-call arguments as delivered by a provider: either a structured
mapping, or one JSON-encoded text blob representing such a mapping. -/
inductive ToolArgs where
  | mapping (fields : List (String × JsonVal))
  | rawText (s : String)

/-- One tool call of an oracle response to the consolidation request. -/
structure ConsToolCall where
  id : String
  name : String
  arguments : ToolArgs

/-- An oracle response to the consolidation request. -/
structure ConsResponse where
  content : Option String
  toolCalls : List ConsToolCall

/-- Modelled from the spec: the two persisted artifacts of the memory store
(the files behind `store.history_file` and `store.memory_file`, absent from
the source tree).  `none` means the file does not exist; the History Store
is a sequence of entries, the Memory Snapshot a single text blob. -/
structure MemoryFiles where
  history : Option (List String)
  memory : Option String
deriving DecidableEq

/-- The observable outcome of one `consolidate` call: its return value (or
the exception it raises), whether the oracle was invoked, and the store
state afterwards. -/
structure ConsResult where
  ret : Except String Bool
  oracleCalled : Bool
  files : MemoryFiles

/-- `dict.get(key)` on a structured arguments mapping. -/
def getField : List (String × JsonVal) → String → Option JsonVal
  | [], _ => none
  | (k, v) :: rest, key => if k = key then some v else getField rest key

/-- Modelled from the spec: normalization of one tool-call argument field
of `save_memory` — a plain string is used verbatim, a structured value is
serialized to canonical JSON text before writing. -/
def normalizeField : JsonVal → String
  | .str s => s
  | v => dumpJson v

/-- Is the value a structured object (mapping or sequence)? -/
def isStructured : JsonVal → Bool
  | .arr _ => true
  | .obj _ => true
  | _ => false

/-- Modelled from the spec: resolution of the arguments' encoding — a
native mapping is used as is, a JSON text blob is parsed before field
access, and text that is not a JSON mapping fails the attempt distinctly. -/
def extractArgs : ToolArgs → Except String (List (String × JsonVal))
  | .mapping m => .ok m
  | .rawText s =>
    match parseJson s with
    | some (.obj m) => .ok m
    | _ => .error "malformed tool-call arguments"

/-- Modelled from the spec: `MemoryStore.consolidate(session, provider,
model, memory_window)`, whose source file `nanobot/agent/memory.py` is
missing from the tree.  Below the retention window it returns `true`
without invoking the oracle; with no tool invocation in the response it
returns `false` and leaves both stores untouched; otherwise it normalizes
the `history_entry`/`memory_update` fields, appends the former to the
History Store and overwrites the Memory Snapshot with the latter. -/
def consolidate (files : MemoryFiles) (session : Session) (memoryWindow : Nat)
    (oracle : Except String ConsResponse) : ConsResult :=
  if session.messages.length < memoryWindow then ⟨.ok true, false, files⟩
  else
    match oracle with
    | .error e => ⟨.error e, true, files⟩
    | .ok resp =>
      match resp.toolCalls with
      | [] => ⟨.ok false, true, files⟩
      | tc :: _ =>
        match extractArgs tc.arguments with
        | .error e => ⟨.error e, true, files⟩
        | .ok m =>
          ⟨.ok true, true,
            ⟨some (files.history.getD []
                ++ [normalizeField ((getField m "history_entry").getD (.str ""))]),
             some (normalizeField ((getField m "memory_update").getD (.str "")))⟩⟩

/-! ## Claim theorems -/

/-- C2: `start()` is idempotent — for an enabled service, a second `start`
while already running returns with the state unchanged, so the retained
task handle is the identical one from the first call and no second loop
task is created. -/
theorem start_idempotent (st : HeartbeatState) (t t' : Nat) (h : st.enabled = true) :
    start (start st t) t' = start st t ∧
      (start (start st t) t').task = (start st t).task := by
  have h1 : start (start st t) t' = start st t := by
    unfold start
    by_cases hr : st.running <;> simp [h, hr]
  exact ⟨h1, by rw [h1]⟩

/-- C2 witness: a concrete enabled, not-yet-running service started twice. -/
theorem start_idempotent_witness :
    start (start ⟨true, false, none, 1800⟩ 1) 2 = start ⟨true, false, none, 1800⟩ 1 ∧
      (start (start ⟨true, false, none, 1800⟩ 1) 2).task
        = (start ⟨true, false, none, 1800⟩ 1).task :=
  start_idempotent ⟨true, false, none, 1800⟩ 1 2 rfl

/-- C1 (amended): any failure raised by the decision, execution or notify
phase of a timer tick is caught at the tick boundary — `_tick` never lets
an exception escape — and the loop goes on to process the next scheduled
tick regardless of what the current tick did.  (`trigger_now`, by
contrast, propagates such failures: see the counterexample.) -/
theorem tick_failures_never_escape_loop :
    ∀ (env : TickEnv) (onExecute : Option (String → Except String String))
      (onNotify : Option (String → Except String Unit)) (rest : List LoopEvent),
      (tick env onExecute onNotify).raised = none ∧
      runLoop onExecute onNotify (.fire env :: rest)
        = tick env onExecute onNotify :: runLoop onExecute onNotify rest := by
  intro env onExecute onNotify rest
  refine ⟨?_, rfl⟩
  unfold tick
  repeat' split
  all_goals rfl

/-- C1 counterexample: with a nonempty trigger file and an oracle whose
`chat` call raises, `trigger_now` lets the decision-phase failure escape to
its caller instead of catching it — refuting the claim that failures in a
`triggerNow` cycle never propagate. -/
theorem triggerNow_propagates_oracle_failure :
    (triggerNow ⟨.present "check tasks", .error "boom"⟩ none).raised = some "boom" ∧
      (triggerNow ⟨.present "check tasks", .error "boom"⟩ none).raised ≠ none :=
  ⟨by decide, by decide⟩

/-- C7: whenever the oracle decision on a cycle is `action=skip`, neither a
tick nor `trigger_now` invokes the execute callback; whenever it is
`action=run` with tasks text `T` and an execute callback is registered,
both invoke it with exactly `T`. -/
theorem heartbeat_decision_determinism
    (content : String) (hc : ¬content = "")
    (tc : HBToolCall) (more : List HBToolCall)
    (onExecute : Option (String → Except String String))
    (onNotify : Option (String → Except String Unit)) :
    (getArg tc.args "action" = some "skip" →
      (tick ⟨.present content, .ok ⟨tc :: more⟩⟩ onExecute onNotify).executeCalledWith = none ∧
      (triggerNow ⟨.present content, .ok ⟨tc :: more⟩⟩ onExecute).executeCalledWith = none) ∧
    (∀ (T : String) (f : String → Except String String),
      getArg tc.args "action" = some "run" → getArg tc.args "tasks" = some T →
      (tick ⟨.present content, .ok ⟨tc :: more⟩⟩ (some f) onNotify).executeCalledWith = some T ∧
      (triggerNow ⟨.present content, .ok ⟨tc :: more⟩⟩ (some f)).executeCalledWith = some T) := by
  constructor
  · intro hskip
    constructor
    · simp [tick, readHeartbeatFile, decidePhase, hbDecide, hc, hskip]
    · simp [triggerNow, readHeartbeatFile, decidePhase, hbDecide, hc, hskip]
  · intro T f hrun htasks
    constructor
    · simp only [tick, readHeartbeatFile, decidePhase, hbDecide, hc]
      simp [hrun, htasks]
      cases hft : f T with
      | error e => simp
      | ok r =>
        by_cases hr : r = "" <;> cases onNotify <;> simp [hr] <;> (try split) <;> rfl
    · simp only [triggerNow, readHeartbeatFile, decidePhase, hbDecide, hc]
      simp [hrun, htasks]
      cases hft : f T with
      | error e => simp
      | ok r => simp

/-- C7 witness: a skip decision leaves execute uninvoked; a run decision
with tasks `"T"` invokes it with exactly `"T"`. -/
theorem heartbeat_decision_determinism_witness :
    (tick ⟨.present "check", .ok ⟨[⟨[("action", "skip")]⟩]⟩⟩ none none).executeCalledWith
        = none ∧
    (triggerNow ⟨.present "check", .ok ⟨[⟨[("action", "run"), ("tasks", "T")]⟩]⟩⟩
        (some fun s => .ok s)).executeCalledWith = some "T" := by
  refine ⟨((heartbeat_decision_determinism "check" (by decide) ⟨[("action", "skip")]⟩ []
      none none).1 rfl).1, ?_⟩
  exact ((heartbeat_decision_determinism "check" (by decide)
      ⟨[("action", "run"), ("tasks", "T")]⟩ [] (some fun s => .ok s) none).2
      "T" (fun s => .ok s) rfl rfl).2

/-- C9: an existing but empty `HEARTBEAT.md` is handled exactly like an
absent or unreadable one — the tick is a no-op that never reaches the
oracle, and `trigger_now` returns `none` without calling the oracle or the
execute callback. -/
theorem empty_heartbeat_file_is_noop :
    ∀ (oracle : Except String HBResponse)
      (onExecute : Option (String → Except String String))
      (onNotify : Option (String → Except String Unit)),
      tick ⟨.present "", oracle⟩ onExecute onNotify
          = tick ⟨.absent, oracle⟩ onExecute onNotify ∧
      tick ⟨.present "", oracle⟩ onExecute onNotify
          = tick ⟨.unreadable, oracle⟩ onExecute onNotify ∧
      tick ⟨.present "", oracle⟩ onExecute onNotify = noopTrace ∧
      triggerNow ⟨.present "", oracle⟩ onExecute
          = triggerNow ⟨.absent, oracle⟩ onExecute ∧
      triggerNow ⟨.present "", oracle⟩ onExecute
          = triggerNow ⟨.unreadable, oracle⟩ onExecute ∧
      (triggerNow ⟨.present "", oracle⟩ onExecute).result = none ∧
      (triggerNow ⟨.present "", oracle⟩ onExecute).oracleCalled = false ∧
      (triggerNow ⟨.present "", oracle⟩ onExecute).executeCalledWith = none := by
  intro oracle onExecute onNotify
  exact ⟨rfl, rfl, rfl, rfl, rfl, rfl, rfl, rfl⟩

/-- C10: the decision phase consults only the first tool call — the
decision is unchanged under any replacement of the later tool calls — and,
when the first call's mapping lacks `action`, the decision defaults to
`skip`; when it lacks `tasks`, the tasks text defaults to `""`. -/
theorem decide_uses_first_tool_call_only
    (tc : HBToolCall) (more more2 : List HBToolCall) :
    hbDecide ⟨tc :: more⟩ = hbDecide ⟨tc :: more2⟩ ∧
    (getArg tc.args "action" = none → (hbDecide ⟨tc :: more⟩).1 = "skip") ∧
    (getArg tc.args "tasks" = none → (hbDecide ⟨tc :: more⟩).2 = "") := by
  refine ⟨rfl, ?_, ?_⟩ <;> (intro h; simp [hbDecide, h])

/-- C10 witness: an empty arguments mapping yields the `("skip", "")`
decision, no matter what later tool calls carry. -/
theorem decide_uses_first_tool_call_only_witness :
    hbDecide ⟨[⟨[]⟩, ⟨[("action", "run")]⟩]⟩ = hbDecide ⟨[⟨[]⟩]⟩ ∧
    (hbDecide ⟨[⟨[]⟩, ⟨[("action", "run")]⟩]⟩).1 = "skip" ∧
    (hbDecide ⟨[⟨[]⟩, ⟨[("action", "run")]⟩]⟩).2 = "" := by
  obtain ⟨a, b, c⟩ :=
    decide_uses_first_tool_call_only ⟨[]⟩ [⟨[("action", "run")]⟩] []
  exact ⟨a, b rfl, c rfl⟩

/-- Helper: one successful consolidation against a mapping with both fields
present appends the normalized history entry and replaces the snapshot. -/
theorem consolidate_mapping_success (files : MemoryFiles) (session : Session)
    (memoryWindow : Nat) (c : Option String) (id nm : String)
    (m : List (String × JsonVal)) (hv mv : JsonVal) (more : List ConsToolCall)
    (h : memoryWindow ≤ session.messages.length)
    (hhv : getField m "history_entry" = some hv)
    (hmv : getField m "memory_update" = some mv) :
    consolidate files session memoryWindow (.ok ⟨c, ⟨id, nm, .mapping m⟩ :: more⟩)
      = ⟨.ok true, true,
          ⟨some (files.history.getD [] ++ [normalizeField hv]),
           some (normalizeField mv)⟩⟩ := by
  simp [consolidate, Nat.not_lt.mpr h, extractArgs, hhv, hmv]

/-- C3: below the retention window, `consolidate` returns `true`
immediately: the oracle's `chat` is never invoked and neither store is
written. -/
theorem consolidate_window_gate (files : MemoryFiles) (session : Session)
    (memoryWindow : Nat) (oracle : Except String ConsResponse)
    (h : session.messages.length < memoryWindow) :
    consolidate files session memoryWindow oracle = ⟨.ok true, false, files⟩ := by
  simp [consolidate, h]

/-- C3 witness: 10 messages against a window of 50. -/
theorem consolidate_window_gate_witness :
    consolidate ⟨none, none⟩ ⟨List.replicate 10 ⟨"user", "m", "2026-01-01 00:00"⟩, 0⟩ 50
        (.ok ⟨none, []⟩)
      = ⟨.ok true, false, ⟨none, none⟩⟩ :=
  consolidate_window_gate _ _ _ _ (by simp)

/-- C4: with enough messages but an oracle response carrying no tool
invocation, `consolidate` returns `false` and leaves both stores exactly as
they were. -/
theorem consolidate_no_tool_call (files : MemoryFiles) (session : Session)
    (memoryWindow : Nat) (c : Option String)
    (h : memoryWindow ≤ session.messages.length) :
    consolidate files session memoryWindow (.ok ⟨c, []⟩)
      = ⟨.ok false, true, files⟩ := by
  simp [consolidate, Nat.not_lt.mpr h]

/-- C4 witness: 60 messages, window 50, a content-only response. -/
theorem consolidate_no_tool_call_witness :
    consolidate ⟨none, none⟩ ⟨List.replicate 60 ⟨"user", "m", "2026-01-01 00:00"⟩, 0⟩ 50
        (.ok ⟨some "I summarized the conversation.", []⟩)
      = ⟨.ok false, true, ⟨none, none⟩⟩ :=
  consolidate_no_tool_call _ _ _ _ (by simp)

/-- C5: each argument field is persisted through `normalizeField`: a
structured (mapping/sequence) value is written as its canonical JSON text,
which parses back to the same value; a plain string is written verbatim. -/
theorem consolidate_normalizes_arguments (files : MemoryFiles) (session : Session)
    (memoryWindow : Nat) (c : Option String) (id nm : String)
    (m : List (String × JsonVal)) (hv mv : JsonVal) (more : List ConsToolCall)
    (h : memoryWindow ≤ session.messages.length)
    (hhv : getField m "history_entry" = some hv)
    (hmv : getField m "memory_update" = some mv) :
    consolidate files session memoryWindow (.ok ⟨c, ⟨id, nm, .mapping m⟩ :: more⟩)
      = ⟨.ok true, true,
          ⟨some (files.history.getD [] ++ [normalizeField hv]),
           some (normalizeField mv)⟩⟩ ∧
    (∀ v : JsonVal, isStructured v = true →
      normalizeField v = dumpJson v ∧ parseJson (normalizeField v) = some v) ∧
    (∀ s : String, normalizeField (.str s) = s) := by
  refine ⟨consolidate_mapping_success files session memoryWindow c id nm m hv mv more
      h hhv hmv, ?_, fun s => rfl⟩
  intro v hstruct
  have heq : normalizeField v = dumpJson v := by
    cases v <;> simp_all [isStructured, normalizeField]
  exact ⟨heq, by rw [heq, parseJson_dumpJson]⟩

/-- C5 witness: the spec's structured examples — the persisted history
entry parses back with `summary = "X"`, the snapshot with `"A"` in
`facts`. -/
theorem consolidate_normalizes_arguments_witness :
    consolidate ⟨none, none⟩ ⟨List.replicate 60 ⟨"user", "m", "2026-01-01 00:00"⟩, 0⟩ 50
        (.ok ⟨none, [⟨"call_1", "save_memory", .mapping
          [("history_entry", .obj [("timestamp", .str "2026-01-01"), ("summary", .str "X")]),
           ("memory_update", .obj [("facts", .arr [.str "A"])])]⟩]⟩)
      = ⟨.ok true, true,
          ⟨some [normalizeField
              (.obj [("timestamp", .str "2026-01-01"), ("summary", .str "X")])],
           some (normalizeField (.obj [("facts", .arr [.str "A"])]))⟩⟩ ∧
    parseJson (normalizeField
        (.obj [("timestamp", .str "2026-01-01"), ("summary", .str "X")]))
      = some (.obj [("timestamp", .str "2026-01-01"), ("summary", .str "X")]) ∧
    parseJson (normalizeField (.obj [("facts", .arr [.str "A"])]))
      = some (.obj [("facts", .arr [.str "A"])]) := by
  obtain ⟨h1, h2, -⟩ := consolidate_normalizes_arguments ⟨none, none⟩
    ⟨List.replicate 60 ⟨"user", "m", "2026-01-01 00:00"⟩, 0⟩ 50 none "call_1" "save_memory"
    [("history_entry", .obj [("timestamp", .str "2026-01-01"), ("summary", .str "X")]),
     ("memory_update", .obj [("facts", .arr [.str "A"])])]
    (.obj [("timestamp", .str "2026-01-01"), ("summary", .str "X")])
    (.obj [("facts", .arr [.str "A"])]) [] (by simp) rfl rfl
  exact ⟨h1,
    (h2 (.obj [("timestamp", .str "2026-01-01"), ("summary", .str "X")]) rfl).2,
    (h2 (.obj [("facts", .arr [.str "A"])]) rfl).2⟩

/-- C6: delivering the `save_memory` arguments as a native mapping and as a
JSON text blob representing that same mapping produces identical outcomes —
in particular byte-identical persisted store contents. -/
theorem consolidate_rawtext_equiv (files : MemoryFiles) (session : Session)
    (memoryWindow : Nat) (c : Option String) (id nm : String)
    (m : List (String × JsonVal)) (s : String) (more : List ConsToolCall)
    (h : parseJson s = some (.obj m)) :
    consolidate files session memoryWindow (.ok ⟨c, ⟨id, nm, .rawText s⟩ :: more⟩)
      = consolidate files session memoryWindow (.ok ⟨c, ⟨id, nm, .mapping m⟩ :: more⟩) := by
  by_cases hw : session.messages.length < memoryWindow <;>
    simp [consolidate, hw, extractArgs, h]

/-- C6 witness: the serialized form of a concrete mapping, parsed back by
`parseJson`, persists identically to the mapping itself. -/
theorem consolidate_rawtext_equiv_witness :
    consolidate ⟨none, none⟩ ⟨List.replicate 60 ⟨"user", "m", "2026-01-01 00:00"⟩, 0⟩ 50
        (.ok ⟨none, [⟨"call_1", "save_memory", .rawText (dumpJson
          (.obj [("history_entry", .str "[2026-01-01] User discussed testing."),
                 ("memory_update", .str "# Memory")]))⟩]⟩)
      = consolidate ⟨none, none⟩ ⟨List.replicate 60 ⟨"user", "m", "2026-01-01 00:00"⟩, 0⟩ 50
        (.ok ⟨none, [⟨"call_1", "save_memory", .mapping
          [("history_entry", .str "[2026-01-01] User discussed testing."),
           ("memory_update", .str "# Memory")]⟩]⟩) :=
  consolidate_rawtext_equiv _ _ _ _ _ _ _ _ _ (parseJson_dumpJson _)

/-- C8: across two successful consolidations the History Store only grows —
each success appends exactly one entry, leaving prior entries untouched, so
the store ends with the two entries in order — while the Memory Snapshot is
wholesale replaced and ends equal to only the second update. -/
theorem consolidate_append_replace (files : MemoryFiles) (s1 s2 : Session)
    (w : Nat) (resp1 resp2 : Except String ConsResponse) (c1 c2 : Option String)
    (id1 id2 nm1 nm2 : String) (e1 u1 e2 u2 : String)
    (more1 more2 : List ConsToolCall)
    (h1 : w ≤ s1.messages.length) (h2 : w ≤ s2.messages.length)
    (hr1 : resp1 = .ok ⟨c1, ⟨id1, nm1, .mapping
        [("history_entry", .str e1), ("memory_update", .str u1)]⟩ :: more1⟩)
    (hr2 : resp2 = .ok ⟨c2, ⟨id2, nm2, .mapping
        [("history_entry", .str e2), ("memory_update", .str u2)]⟩ :: more2⟩) :
    (consolidate files s1 w resp1).ret = .ok true ∧
    (consolidate files s1 w resp1).files.history
        = some (files.history.getD [] ++ [e1]) ∧
    (consolidate files s1 w resp1).files.memory = some u1 ∧
    (consolidate (consolidate files s1 w resp1).files s2 w resp2).ret = .ok true ∧
    (consolidate (consolidate files s1 w resp1).files s2 w resp2).files.history
        = some (files.history.getD [] ++ [e1, e2]) ∧
    (consolidate (consolidate files s1 w resp1).files s2 w resp2).files.memory
        = some u2 := by
  subst hr1 hr2
  rw [consolidate_mapping_success files s1 w c1 id1 nm1 _ (.str e1) (.str u1) more1 h1
      (by simp [getField]) (by simp [getField])]
  rw [consolidate_mapping_success _ s2 w c2 id2 nm2 _ (.str e2) (.str u2) more2 h2
      (by simp [getField]) (by simp [getField])]
  simp [normalizeField]

/-- C8 witness: two concrete successes with distinct history entries. -/
theorem consolidate_append_replace_witness :
    (consolidate
        (consolidate ⟨none, none⟩ ⟨List.replicate 60 ⟨"user", "m", "t"⟩, 0⟩ 50
          (.ok ⟨none, [⟨"c1", "save_memory", .mapping
            [("history_entry", .str "first"), ("memory_update", .str "mem one")]⟩]⟩)).files
        ⟨List.replicate 70 ⟨"user", "m", "t"⟩, 0⟩ 50
        (.ok ⟨none, [⟨"c2", "save_memory", .mapping
          [("history_entry", .str "second"), ("memory_update", .str "mem two")]⟩]⟩)).files.history
      = some ["first", "second"] ∧
    (consolidate
        (consolidate ⟨none, none⟩ ⟨List.replicate 60 ⟨"user", "m", "t"⟩, 0⟩ 50
          (.ok ⟨none, [⟨"c1", "save_memory", .mapping
            [("history_entry", .str "first"), ("memory_update", .str "mem one")]⟩]⟩)).files
        ⟨List.replicate 70 ⟨"user", "m", "t"⟩, 0⟩ 50
        (.ok ⟨none, [⟨"c2", "save_memory", .mapping
          [("history_entry", .str "second"), ("memory_update", .str "mem two")]⟩]⟩)).files.memory
      = some "mem two" := by
  obtain ⟨-, -, -, -, h5, h6⟩ := consolidate_append_replace ⟨none, none⟩
    ⟨List.replicate 60 ⟨"user", "m", "t"⟩, 0⟩ ⟨List.replicate 70 ⟨"user", "m", "t"⟩, 0⟩ 50
    _ _ none none "c1" "c2" "save_memory" "save_memory"
    "first" "mem one" "second" "mem two" [] [] (by simp) (by simp) rfl rfl
  exact ⟨h5, h6⟩
